import Mathlib

/-!
Shallow embedding of `src/analyze_school/school_celemony_prediction.py`
(Policy A) and `src/analyze_school/school_celemony_prediction_2.py`
(Policy B) from the Metro repository.

Dates are modelled as natural numbers (`pd.Timestamp` values, totally
ordered); departure counts are natural numbers; the float arithmetic of
pandas (`rolling(...).median()`, `/`, `.ge`, `.idxmax`) is modelled over
`ℚ` extended with the two special values that actually arise, `NaN`
(`RVal.undef`) and `+∞` (`RVal.pinf`: pandas produces `inf` when a
positive count is divided by a zero baseline).  `pd.NaT` is `Option.none`.
-/

namespace Metro

/-- One row of a per-station daily-count series handed to
`detect_start_date`: columns `data_date` and `departures`. -/
structure Row where
  data_date : ℕ
  departures : ℕ
  deriving DecidableEq, Repr

/-- The comparison `df.sort_values("data_date")` orders by. -/
def rowLe (a b : Row) : Prop := a.data_date ≤ b.data_date

instance : DecidableRel rowLe := fun a b => Nat.decLe a.data_date b.data_date

instance : IsTotal Row rowLe := ⟨fun a b => Nat.le_total a.data_date b.data_date⟩

instance : IsTrans Row rowLe := ⟨fun _ _ _ h₁ h₂ => Nat.le_trans h₁ h₂⟩

/-- `df.sort_values("data_date")`: sort the series ascending by date. -/
def sortByDate (df : List Row) : List Row :=
  List.insertionSort rowLe df

/-- Median of a list of naturals as pandas computes it for a full window:
sort, take the middle element for odd length, the mean of the two middle
elements for even length.  (Unused on the empty list.) -/
def medianQ (l : List ℕ) : ℚ :=
  let s := List.insertionSort (fun a b => a ≤ b) l
  let n := s.length
  if n % 2 = 1 then (s.getD (n / 2) 0 : ℚ)
  else ((s.getD (n / 2 - 1) 0 : ℚ) + (s.getD (n / 2) 0 : ℚ)) / 2

/-- `df["departures"].rolling(window, min_periods=window).median()`:
position `i` gets the median of the `window` trailing counts ending at
and including `i`, and `NaN` (`none`) while fewer than `window`
observations are available (also for the degenerate `window = 0`, which
pandas rejects outright). -/
def rollingMedian (counts : List ℕ) (window : ℕ) : List (Option ℚ) :=
  (List.range counts.length).map fun i =>
    if 1 ≤ window ∧ window ≤ i + 1 then
      some (medianQ ((counts.take (i + 1)).drop (i + 1 - window)))
    else none

/-- Value of one entry of the `ratio` column: a float that is either NaN,
`+∞`, or an ordinary (rational) number. -/
inductive RVal where
  | undef : RVal
  | fin : ℚ → RVal
  | pinf : RVal
  deriving DecidableEq, Repr

/-- `pd.notna` on a ratio entry: `inf` counts as present, `NaN` does not. -/
def RVal.notna : RVal → Bool
  | .undef => false
  | _ => true

/-- `series.ge(q)` on one entry: `NaN ≥ q` is `False`, `inf ≥ q` is
`True`, and a finite value compares numerically. -/
def RVal.geQ : RVal → ℚ → Bool
  | .undef, _ => false
  | .pinf, _ => true
  | .fin x, q => decide (q ≤ x)

/-- Strict order used by `idxmax` between two non-NaN ratio entries
(`undef` is never selected; it is placed at the bottom). -/
def RVal.lt : RVal → RVal → Bool
  | .undef, .undef => false
  | .undef, _ => true
  | .fin _, .undef => false
  | .fin a, .fin b => decide (a < b)
  | .fin _, .pinf => true
  | .pinf, _ => false

/-- `df["departures"] / df["baseline"]` at one position: IEEE float
division as pandas performs it.  `c / NaN = NaN`; `c / 0` is `NaN` when
`c = 0` and `+∞` when `c > 0`; otherwise the exact quotient. -/
def ratioOf (c : ℕ) (b : Option ℚ) : RVal :=
  match b with
  | none => .undef
  | some bq => if bq = 0 then (if c = 0 then .undef else .pinf) else .fin (c / bq)

/-- The date-sorted series together with its `baseline` and `ratio`
columns, one entry per row in ascending date order. -/
def prep (df : List Row) (window : ℕ) : List (Row × Option ℚ × RVal) :=
  let s := sortByDate df
  let bs := rollingMedian (s.map Row.departures) window
  s.zip (bs.zip (List.zipWith (fun r b => ratioOf r.departures b) s bs))

/-- One concrete pipeline entry used to witness the ratio-definedness
characterization: the single row of the series `[5]` under `window = 1`. -/
def sampleEntry : Row × Option ℚ × RVal := (⟨0, 5⟩, some 5, RVal.fin 1)

/-- The spike mask at one entry:
`df["baseline"].ge(min_count) & df["ratio"].ge(multiplier)` (a NaN
baseline or NaN ratio fails the test). -/
def maskSpike (min_count multiplier : ℚ) (e : Row × Option ℚ × RVal) : Bool :=
  (match e.2.1 with
   | none => false
   | some bq => decide (min_count ≤ bq)) && e.2.2.geQ multiplier

/-- `idxmax` over the ratio column of a list of entries: skip NaN, return
the first entry attaining the maximum (`inf` beats every finite value). -/
def idxmaxRatio : List (Row × Option ℚ × RVal) → Option (Row × Option ℚ × RVal)
  | [] => none
  | e :: rest =>
    if e.2.2.notna then
      match idxmaxRatio rest with
      | none => some e
      | some e' => if RVal.lt e.2.2 e'.2.2 then some e' else some e
    else idxmaxRatio rest

/-- `_fallback_date(df)` applied to the date-sorted series: the first row
(hence the earliest date) whose departures equal the maximum departures.
(Pandas raises on an empty frame; the model returns `none` there.) -/
def fallbackDate (s : List Row) : Option ℕ :=
  let m := (s.map Row.departures).foldr max 0
  (s.find? fun r => r.departures = m).map Row.data_date

/-- `detect_start_date` of `school_celemony_prediction.py` (Policy A):
first date passing the spike mask; otherwise NaT if `guarantee` is off;
otherwise the `idxmax`-of-ratio date over the rows with a non-NaN
baseline when some ratio there is non-NaN; otherwise the max-departures
fallback. -/
def detect_start_date (df : List Row) (window : ℕ) (multiplier min_count : ℚ)
    (guarantee : Bool) : Option ℕ :=
  let entries := prep df window
  match entries.filter (maskSpike min_count multiplier) with
  | e :: _ => some e.1.data_date
  | [] =>
    if !guarantee then none
    else
      let ab := entries.filter fun e => e.2.1.isSome
      if ab.any fun e => e.2.2.notna then
        (idxmaxRatio ab).map fun e => e.1.data_date
      else fallbackDate (sortByDate df)

/-- `detect_start_date` of `school_celemony_prediction_2.py` (Policy B):
always the `idxmax`-of-ratio date when some ratio is non-NaN; otherwise
the max-departures fallback if `guarantee`, else NaT.  The `multiplier`
and `min_count` parameters are accepted, as in the source, but unused. -/
def detect_start_date_2 (df : List Row) (window : ℕ) (multiplier min_count : ℚ)
    (guarantee : Bool) : Option ℕ :=
  let entries := prep df window
  let ab := entries.filter fun e => e.2.1.isSome
  if ab.any fun e => e.2.2.notna then
    (idxmaxRatio ab).map fun e => e.1.data_date
  else if guarantee then fallbackDate (sortByDate df) else none

/-- One relevant field pair of a raw trip record (the typo `depature` is
the source's). -/
structure Trip where
  data_date : ℕ
  depature_station : ℕ
  deriving DecidableEq, Repr

/-- One row of the aggregated daily-counts table. -/
structure DRow where
  data_date : ℕ
  station : ℕ
  departures : ℕ
  deriving DecidableEq, Repr

/-- The sort order pandas `groupby(["data_date", "depature_station"])`
uses on its keys: lexicographic on (date, station). -/
def keyLe (a b : ℕ × ℕ) : Prop := a.1 < b.1 ∨ (a.1 = b.1 ∧ a.2 ≤ b.2)

instance : DecidableRel keyLe := fun a b =>
  inferInstanceAs (Decidable (a.1 < b.1 ∨ a.1 = b.1 ∧ a.2 ≤ b.2))

instance : IsTotal (ℕ × ℕ) keyLe := ⟨by intro a b; unfold keyLe; omega⟩

instance : IsTrans (ℕ × ℕ) keyLe := ⟨by intro a b c; unfold keyLe; omega⟩

instance : IsAntisymm (ℕ × ℕ) keyLe := ⟨by
  intro a b h₁ h₂
  obtain ⟨a₁, a₂⟩ := a
  obtain ⟨b₁, b₂⟩ := b
  unfold keyLe at h₁ h₂
  simp only [Prod.mk.injEq]
  omega⟩

/-- `aggregate_daily_counts`: group the trips by (date, station) and take
group sizes; pandas emits one row per distinct key, keys sorted. -/
def aggregate_daily_counts (rides : List Trip) : List DRow :=
  let keys := List.insertionSort keyLe
    ((rides.map fun t => (t.data_date, t.depature_station)).dedup)
  keys.map fun k =>
    ⟨k.1, k.2, rides.countP fun t => t.data_date == k.1 && t.depature_station == k.2⟩

/-- The per-station series a groupby hands to `detect_start_date`: the
rows of `subset` for station `s`, in table order. -/
def groupRows (subset : List DRow) (s : ℕ) : List Row :=
  (subset.filter fun r => r.station == s).map fun r => ⟨r.data_date, r.departures⟩

/-- `predict_ceremony_dates` of `school_celemony_prediction.py`: restrict
the daily table to the target stations, then one record per station
present in the restricted table (groupby: stations sorted, absent
stations yield no group), holding `detect_start_date` of that station's
series. -/
def predict_ceremony_dates (daily : List DRow) (target : List ℕ) (window : ℕ)
    (multiplier min_count : ℚ) (guarantee : Bool) : List (ℕ × Option ℕ) :=
  let subset := daily.filter fun r => decide (r.station ∈ target)
  let stations := List.insertionSort (fun a b => a ≤ b) (subset.map DRow.station).dedup
  stations.map fun s =>
    (s, detect_start_date (groupRows subset s) window multiplier min_count guarantee)

/-- `choose_overall_date` over the `pred_ceremony_date` column:
`value_counts()` drops NaT and orders by frequency descending, so the
code returns `None` on an all-NaT column and otherwise the minimum of
the dates attaining the maximum frequency. -/
def choose_overall_date (preds : List (Option ℕ)) : Option ℕ :=
  let defined := preds.filterMap id
  let maxf := (defined.map fun d => defined.count d).foldr max 0
  (defined.filter fun d => defined.count d == maxf).foldr
    (fun a acc => match acc with | none => some a | some b => some (min a b)) none

/-- One row of the predictions table as `save_date_summary` reads it:
a station name (a string, modelled as its characters) and a predicted
date. -/
structure SRow where
  station : List Char
  pred_ceremony_date : Option ℕ
  deriving DecidableEq, Repr

/-- The separator `", "` used by `", ".join` and `x.split(", ")`. -/
def sepCS : List Char := [',', ' ']

/-- Whether `", "` occurs (as a contiguous substring) in a string. -/
def hasSepCS : List Char → Bool
  | [] => false
  | [_] => false
  | a :: b :: rest => (a == ',' && b == ' ') || hasSepCS (b :: rest)

/-- `x.split(", ")`: cut at each leftmost non-overlapping occurrence of
the separator, scanning left to right. -/
def splitCommaSpace : List Char → List (List Char)
  | [] => [[]]
  | [a] => [[a]]
  | a :: b :: rest =>
    if a = ',' ∧ b = ' ' then [] :: splitCommaSpace rest
    else
      match splitCommaSpace (b :: rest) with
      | [] => [[a]]
      | p :: ps => (a :: p) :: ps

/-- The stations predicted for date `d`, in table order (one group of
`preds.groupby("pred_ceremony_date")["station"]`). -/
def stationsFor (preds : List SRow) (d : ℕ) : List (List Char) :=
  (preds.filter fun r => r.pred_ceremony_date == some d).map SRow.station

/-- `save_date_summary`: group by predicted date (NaT dropped, keys
sorted ascending), join each group's stations with `", "`, and derive
the `count` column by splitting that joined string back on `", "`. -/
def save_date_summary (preds : List SRow) : List (ℕ × List Char × ℕ) :=
  let dates := List.insertionSort (fun a b => a ≤ b)
    (preds.filterMap SRow.pred_ceremony_date).dedup
  dates.map fun d =>
    let joined := List.intercalate sepCS (stationsFor preds d)
    (d, joined, (splitCommaSpace joined).length)

/-! ### Structural lemmas about the embedded pipeline -/

theorem sortByDate_perm (df : List Row) : (sortByDate df).Perm df :=
  List.perm_insertionSort rowLe df

theorem sortByDate_sorted (df : List Row) : (sortByDate df).Sorted rowLe :=
  List.sorted_insertionSort rowLe df

theorem sortByDate_ne_nil {df : List Row} (h : df ≠ []) : sortByDate df ≠ [] :=
  fun hnil => h (List.Perm.eq_nil (hnil ▸ (sortByDate_perm df).symm))

theorem length_rollingMedian (counts : List ℕ) (window : ℕ) :
    (rollingMedian counts window).length = counts.length := by
  simp [rollingMedian]

theorem prep_map_fst (df : List Row) (window : ℕ) :
    (prep df window).map Prod.fst = sortByDate df := by
  unfold prep
  apply List.map_fst_zip
  simp only [List.length_zip, List.length_zipWith, length_rollingMedian, List.length_map]
  omega

theorem prep_pairwise_date (df : List Row) (window : ℕ) :
    (prep df window).Pairwise
      (fun e e' : Row × Option ℚ × RVal => e.1.data_date ≤ e'.1.data_date) := by
  have hs := sortByDate_sorted df
  rw [← prep_map_fst df window] at hs
  rw [List.Sorted, List.pairwise_map] at hs
  exact hs

theorem prep_mem_ratio (df : List Row) (window : ℕ) {e : Row × Option ℚ × RVal}
    (he : e ∈ prep df window) : e.2.2 = ratioOf e.1.departures e.2.1 := by
  unfold prep at he
  obtain ⟨i, hi, hgi⟩ := List.mem_iff_getElem.mp he
  rw [List.getElem_zip, List.getElem_zip, List.getElem_zipWith] at hgi
  subst hgi
  rfl

/-- C9: for every date-sorted station series and `window ≥ 2`, the
baseline column produced by
`rolling(window, min_periods=window).median()` is undefined at each of
the first `window - 1` positions and elsewhere equals the median of the
`window` trailing counts ending at and including position `i`. -/
theorem baseline_rolling_median (df : List Row) (window : ℕ) (hw : 2 ≤ window)
    (i : ℕ) (hi : i < (sortByDate df).length) :
    (i < window - 1 →
      (rollingMedian ((sortByDate df).map Row.departures) window)[i]? = some none)
    ∧ (window - 1 ≤ i →
      (rollingMedian ((sortByDate df).map Row.departures) window)[i]? =
        some (some (medianQ
          ((((sortByDate df).map Row.departures).drop (i + 1 - window)).take window)))) := by
  have hlen : i < ((sortByDate df).map Row.departures).length := by simpa using hi
  rw [rollingMedian, List.getElem?_map]
  rw [List.getElem?_range (by simpa using hlen)]
  simp only [Option.map_some']
  constructor
  · intro hlt
    rw [if_neg (by omega)]
  · intro hge
    rw [if_pos (by omega)]
    have hdt : (((sortByDate df).map Row.departures).take (i + 1)).drop (i + 1 - window)
        = (((sortByDate df).map Row.departures).drop (i + 1 - window)).take window := by
      rw [List.drop_take]
      congr 1
      omega
    rw [hdt]

/-- Witness for `baseline_rolling_median` at a concrete three-row series
with `window = 2` and `i = 1`. -/
theorem baseline_rolling_median_witness :
    (2 : ℕ) ≤ 2 ∧ 1 < (sortByDate [⟨0, 10⟩, ⟨1, 20⟩, ⟨2, 30⟩]).length ∧
    ((1 < 2 - 1 →
      (rollingMedian ((sortByDate [⟨0, 10⟩, ⟨1, 20⟩, ⟨2, 30⟩]).map Row.departures) 2)[1]?
        = some none)
    ∧ (2 - 1 ≤ 1 →
      (rollingMedian ((sortByDate [⟨0, 10⟩, ⟨1, 20⟩, ⟨2, 30⟩]).map Row.departures) 2)[1]?
        = some (some (medianQ
            ((((sortByDate [⟨0, 10⟩, ⟨1, 20⟩, ⟨2, 30⟩]).map Row.departures).drop
              (1 + 1 - 2)).take 2))))) :=
  ⟨by decide, by decide, baseline_rolling_median _ 2 (by decide) 1 (by decide)⟩

/-! ### Fold characterizations used by the consensus selector -/

theorem le_foldr_max {l : List ℕ} {x : ℕ} (hx : x ∈ l) : x ≤ l.foldr max 0 := by
  induction l with
  | nil => cases hx
  | cons a t ih =>
    rcases List.mem_cons.mp hx with rfl | h
    · exact Nat.le_max_left _ _
    · exact Nat.le_trans (ih h) (Nat.le_max_right _ _)

theorem foldr_max_attained {l : List ℕ} (h : l ≠ []) :
    l.foldr max 0 ∈ l ∨ l.foldr max 0 = 0 := by
  induction l with
  | nil => exact absurd rfl h
  | cons a t ih =>
    cases t with
    | nil =>
      left
      show max a 0 ∈ [a]
      rw [max_eq_left (Nat.zero_le a)]
      exact List.mem_singleton_self a
    | cons b t' =>
      have hfold : (a :: b :: t').foldr max 0 = max a ((b :: t').foldr max 0) := rfl
      rcases ih (by simp) with hmem | h0
      · rcases Nat.le_total ((b :: t').foldr max 0) a with hc | hc
        · left
          rw [hfold, max_eq_left hc]
          exact List.mem_cons_self a _
        · left
          rw [hfold, max_eq_right hc]
          exact List.mem_cons_of_mem a hmem
      · left
        rw [hfold, h0, max_eq_left (Nat.zero_le a)]
        exact List.mem_cons_self a _

theorem foldr_min_eq_none (l : List ℕ) :
    (l.foldr (fun a acc => match acc with
      | none => some a
      | some b => some (min a b)) none) = none ↔ l = [] := by
  induction l with
  | nil => simp
  | cons a t _ =>
    simp only [List.foldr_cons]
    constructor
    · intro h
      exfalso
      cases hf : (t.foldr (fun a acc => match acc with
        | none => some a
        | some b => some (min a b)) none) with
      | none => rw [hf] at h; simp at h
      | some b => rw [hf] at h; simp at h
    · intro h; cases h

theorem foldr_min_spec {l : List ℕ} {m : ℕ}
    (h : (l.foldr (fun a acc => match acc with
      | none => some a
      | some b => some (min a b)) none) = some m) :
    m ∈ l ∧ ∀ x ∈ l, m ≤ x := by
  induction l generalizing m with
  | nil => simp at h
  | cons a t ih =>
    simp only [List.foldr_cons] at h
    cases hf : (t.foldr (fun a acc => match acc with
      | none => some a
      | some b => some (min a b)) none) with
    | none =>
      rw [hf] at h
      simp only [Option.some.injEq] at h
      have ht : t = [] := (foldr_min_eq_none t).mp hf
      subst ht
      subst h
      refine ⟨List.mem_singleton_self a, ?_⟩
      intro x hx
      rw [List.mem_singleton] at hx
      omega
    | some b =>
      rw [hf] at h
      simp only [Option.some.injEq] at h
      obtain ⟨hbmem, hble⟩ := ih hf
      constructor
      · rcases Nat.le_total a b with hc | hc
        · have hma : m = a := by omega
          rw [hma]; exact List.mem_cons_self a t
        · have hmb : m = b := by omega
          rw [hmb]; exact List.mem_cons_of_mem a hbmem
      · intro x hx
        rcases List.mem_cons.mp hx with rfl | hxt
        · omega
        · have := hble x hxt; omega

/-- C4: `choose_overall_date` returns `None` exactly when zero
predictions are defined, and otherwise returns a defined date of maximum
frequency that is the earliest among the dates sharing that maximum
frequency. -/
theorem choose_overall_date_spec (preds : List (Option ℕ)) :
    (choose_overall_date preds = none ↔ preds.filterMap id = [])
    ∧ ∀ d, choose_overall_date preds = some d →
        d ∈ preds.filterMap id
        ∧ (∀ d' ∈ preds.filterMap id,
            (preds.filterMap id).count d' ≤ (preds.filterMap id).count d)
        ∧ (∀ d' ∈ preds.filterMap id,
            (preds.filterMap id).count d' = (preds.filterMap id).count d → d ≤ d') := by
  set defined := preds.filterMap id with hdef
  set maxf := (defined.map fun d => defined.count d).foldr max 0 with hmaxf
  set cands := defined.filter (fun d => defined.count d == maxf) with hcands
  have hch : choose_overall_date preds = cands.foldr (fun a acc => match acc with
      | none => some a
      | some b => some (min a b)) none := rfl
  have hcands_ne : defined ≠ [] → cands ≠ [] := by
    intro hne hcnil
    have hall := List.filter_eq_nil_iff.mp hcnil
    obtain ⟨d₀, hd₀⟩ := List.exists_mem_of_ne_nil defined hne
    have hle : defined.count d₀ ≤ maxf :=
      le_foldr_max (List.mem_map_of_mem _ hd₀)
    have hpos : 0 < defined.count d₀ := List.count_pos_iff.mpr hd₀
    have hmaps_ne : defined.map (fun d => defined.count d) ≠ [] := by
      simp [List.map_eq_nil_iff]; intro hx; rw [hx] at hd₀; cases hd₀
    rcases foldr_max_attained hmaps_ne with hmem | h0
    · rw [← hmaxf] at hmem
      obtain ⟨d₁, hd₁, hcnt⟩ := List.mem_map.mp hmem
      exact hall d₁ hd₁ (by simp [hcnt])
    · rw [← hmaxf] at h0; omega
  constructor
  · rw [hch, foldr_min_eq_none]
    constructor
    · intro hcnil
      by_contra hne
      exact hcands_ne hne hcnil
    · intro hnil
      rw [hcands, hnil, List.filter_nil]
  · intro d hd
    rw [hch] at hd
    obtain ⟨hdmem, hdle⟩ := foldr_min_spec hd
    have hdc := List.mem_filter.mp hdmem
    have hdcount : defined.count d = maxf := by
      have := hdc.2; simpa using this
    refine ⟨hdc.1, ?_, ?_⟩
    · intro d' hd'
      rw [hdcount]
      exact le_foldr_max (List.mem_map_of_mem _ hd')
    · intro d' hd' hcnt
      apply hdle
      rw [hcands]
      apply List.mem_filter.mpr
      exact ⟨hd', by simp [hcnt, hdcount]⟩

/-- Witness for `choose_overall_date_spec`: with two predictions each
for dates 1 and 2 plus one NaT, the tie is broken to the earlier date 1. -/
theorem choose_overall_date_spec_witness :
    choose_overall_date [some 2, some 1, some 2, some 1, none] = some 1
    ∧ (1 ∈ ([some 2, some 1, some 2, some 1, none] : List (Option ℕ)).filterMap id
      ∧ (∀ d' ∈ ([some 2, some 1, some 2, some 1, none] : List (Option ℕ)).filterMap id,
          (([some 2, some 1, some 2, some 1, none] : List (Option ℕ)).filterMap id).count d'
            ≤ (([some 2, some 1, some 2, some 1, none] : List (Option ℕ)).filterMap id).count 1)
      ∧ (∀ d' ∈ ([some 2, some 1, some 2, some 1, none] : List (Option ℕ)).filterMap id,
          (([some 2, some 1, some 2, some 1, none] : List (Option ℕ)).filterMap id).count d'
            = (([some 2, some 1, some 2, some 1, none] : List (Option ℕ)).filterMap id).count 1
          → 1 ≤ d')) :=
  ⟨by decide, (choose_overall_date_spec [some 2, some 1, some 2, some 1, none]).2 1 (by decide)⟩

/-! ### Policy A: the threshold-first scan -/

theorem detect_spike_head (df : List Row) (window : ℕ) (multiplier min_count : ℚ)
    (guarantee : Bool)
    (hq : ∃ e ∈ prep df window, maskSpike min_count multiplier e = true) :
    ∃ e ∈ prep df window, maskSpike min_count multiplier e = true
      ∧ detect_start_date df window multiplier min_count guarantee = some e.1.data_date
      ∧ ∀ e' ∈ prep df window, maskSpike min_count multiplier e' = true →
          e.1.data_date ≤ e'.1.data_date := by
  obtain ⟨e₀, he₀, hm₀⟩ := hq
  have hmem : e₀ ∈ (prep df window).filter (maskSpike min_count multiplier) :=
    List.mem_filter.mpr ⟨he₀, hm₀⟩
  cases hfil : (prep df window).filter (maskSpike min_count multiplier) with
  | nil => rw [hfil] at hmem; cases hmem
  | cons e rest =>
    have hepw : ((prep df window).filter (maskSpike min_count multiplier)).Pairwise
        (fun e e' : Row × Option ℚ × RVal => e.1.data_date ≤ e'.1.data_date) :=
      List.Pairwise.filter _ (prep_pairwise_date df window)
    rw [hfil] at hepw
    have hefil : e ∈ (prep df window).filter (maskSpike min_count multiplier) := by
      rw [hfil]; exact List.mem_cons_self e rest
    have hee := List.mem_filter.mp hefil
    refine ⟨e, hee.1, hee.2, ?_, ?_⟩
    · simp only [detect_start_date]
      rw [hfil]
    · intro e' he' hm'
      have he'fil : e' ∈ (prep df window).filter (maskSpike min_count multiplier) :=
        List.mem_filter.mpr ⟨he', hm'⟩
      rw [hfil] at he'fil
      rcases List.mem_cons.mp he'fil with rfl | htail
      · exact le_refl _
      · exact List.rel_of_pairwise_cons hepw htail

/-- C1: Policy A threshold-first scan: whenever some point of the
date-sorted series passes `baseline ≥ min_count` and `ratio ≥
multiplier`, `detect_start_date` of `school_celemony_prediction.py`
returns the date of a qualifying point whose date is least among all
qualifying points (first occurrence in ascending date order, not the
maximum-ratio point). -/
theorem detect_policyA_first_qualifying (df : List Row) (window : ℕ)
    (multiplier min_count : ℚ) (guarantee : Bool)
    (hq : ∃ e ∈ prep df window, maskSpike min_count multiplier e = true) :
    ∃ e ∈ prep df window, maskSpike min_count multiplier e = true
      ∧ detect_start_date df window multiplier min_count guarantee = some e.1.data_date
      ∧ ∀ e' ∈ prep df window, maskSpike min_count multiplier e' = true →
          e.1.data_date ≤ e'.1.data_date :=
  detect_spike_head df window multiplier min_count guarantee hq

/-- Witness for `detect_policyA_first_qualifying`: the example series
`[10,10,10,10,10,10,10,60]` with `window = 7`, `multiplier = 3/2`,
`min_count = 5` has a qualifying spike. -/
theorem detect_policyA_first_qualifying_witness :
    (∃ e ∈ prep [⟨0, 10⟩, ⟨1, 10⟩, ⟨2, 10⟩, ⟨3, 10⟩, ⟨4, 10⟩, ⟨5, 10⟩, ⟨6, 10⟩, ⟨7, 60⟩] 7,
      maskSpike 5 (3/2) e = true)
    ∧ ∃ e ∈ prep [⟨0, 10⟩, ⟨1, 10⟩, ⟨2, 10⟩, ⟨3, 10⟩, ⟨4, 10⟩, ⟨5, 10⟩, ⟨6, 10⟩, ⟨7, 60⟩] 7,
        maskSpike 5 (3/2) e = true
        ∧ detect_start_date [⟨0, 10⟩, ⟨1, 10⟩, ⟨2, 10⟩, ⟨3, 10⟩, ⟨4, 10⟩, ⟨5, 10⟩, ⟨6, 10⟩,
            ⟨7, 60⟩] 7 (3/2) 5 true = some e.1.data_date
        ∧ ∀ e' ∈ prep [⟨0, 10⟩, ⟨1, 10⟩, ⟨2, 10⟩, ⟨3, 10⟩, ⟨4, 10⟩, ⟨5, 10⟩, ⟨6, 10⟩,
            ⟨7, 60⟩] 7,
            maskSpike 5 (3/2) e' = true → e.1.data_date ≤ e'.1.data_date :=
  ⟨by with_unfolding_all decide, detect_policyA_first_qualifying _ 7 (3/2) 5 true (by with_unfolding_all decide)⟩

/-- C8: threshold monotonicity for Policy A: with the same series and
configuration apart from `multiplier`, if some point still qualifies at
the higher threshold then both runs return a qualifying date and the
higher-threshold date is never earlier. -/
theorem detect_policyA_threshold_monotone (df : List Row) (window : ℕ)
    (m m' min_count : ℚ) (g g' : Bool) (hmm : m ≤ m')
    (hq' : ∃ e ∈ prep df window, maskSpike min_count m' e = true) :
    ∃ d d', detect_start_date df window m min_count g = some d
      ∧ detect_start_date df window m' min_count g' = some d'
      ∧ d ≤ d' := by
  have hmono : ∀ e : Row × Option ℚ × RVal, maskSpike min_count m' e = true →
      maskSpike min_count m e = true := by
    intro e hm'
    unfold maskSpike at hm' ⊢
    rw [Bool.and_eq_true] at hm' ⊢
    refine ⟨hm'.1, ?_⟩
    have h2 := hm'.2
    cases hv : e.2.2 with
    | undef => rw [hv] at h2; exact absurd h2 (by simp [RVal.geQ])
    | pinf => simp [RVal.geQ]
    | fin x =>
      rw [hv] at h2
      simp only [RVal.geQ, decide_eq_true_eq] at h2 ⊢
      linarith
  have hq : ∃ e ∈ prep df window, maskSpike min_count m e = true := by
    obtain ⟨e, he, hmk⟩ := hq'
    exact ⟨e, he, hmono e hmk⟩
  obtain ⟨e, he, _, hde, hmine⟩ := detect_spike_head df window m min_count g hq
  obtain ⟨e', he', hmaske', hde', _⟩ := detect_spike_head df window m' min_count g' hq'
  exact ⟨e.1.data_date, e'.1.data_date, hde, hde', hmine e' he' (hmono e' hmaske')⟩

/-- Witness for `detect_policyA_threshold_monotone`: thresholds 3/2 and
2 on the spike series both qualify at date 7. -/
theorem detect_policyA_threshold_monotone_witness :
    ((3 : ℚ)/2 ≤ 2)
    ∧ (∃ e ∈ prep [⟨0, 10⟩, ⟨1, 10⟩, ⟨2, 10⟩, ⟨3, 10⟩, ⟨4, 10⟩, ⟨5, 10⟩, ⟨6, 10⟩, ⟨7, 60⟩] 7,
        maskSpike 5 2 e = true)
    ∧ ∃ d d', detect_start_date [⟨0, 10⟩, ⟨1, 10⟩, ⟨2, 10⟩, ⟨3, 10⟩, ⟨4, 10⟩, ⟨5, 10⟩,
        ⟨6, 10⟩, ⟨7, 60⟩] 7 (3/2) 5 true = some d
      ∧ detect_start_date [⟨0, 10⟩, ⟨1, 10⟩, ⟨2, 10⟩, ⟨3, 10⟩, ⟨4, 10⟩, ⟨5, 10⟩,
          ⟨6, 10⟩, ⟨7, 60⟩] 7 2 5 false = some d'
      ∧ d ≤ d' :=
  ⟨by norm_num, by with_unfolding_all decide,
    detect_policyA_threshold_monotone _ 7 (3/2) 2 5 true false (by norm_num) (by with_unfolding_all decide)⟩

/-! ### Properties of the idxmax scan and the raw-count fallback -/

theorem RVal.lt_irrefl (v : RVal) : RVal.lt v v = false := by
  cases v <;> simp [RVal.lt]

theorem RVal.lt_asymm {a b : RVal} (h : RVal.lt a b = true) : RVal.lt b a = false := by
  cases a <;> cases b <;> simp_all [RVal.lt] <;> linarith

theorem RVal.lt_neg_trans {a b c : RVal} (h₁ : RVal.lt a b = false)
    (h₂ : RVal.lt b c = false) : RVal.lt a c = false := by
  cases a <;> cases b <;> cases c <;> simp_all [RVal.lt] <;> linarith

theorem idxmaxRatio_eq_none {l : List (Row × Option ℚ × RVal)} :
    idxmaxRatio l = none ↔ ∀ e ∈ l, e.2.2.notna = false := by
  induction l with
  | nil => simp [idxmaxRatio]
  | cons e₀ rest ih =>
    simp only [idxmaxRatio]
    by_cases hn : e₀.2.2.notna = true
    · rw [if_pos hn]
      constructor
      · intro h
        exfalso
        cases hrest : idxmaxRatio rest with
        | none =>
          rw [hrest] at h
          exact Option.noConfusion (h : some e₀ = none)
        | some e' =>
          rw [hrest] at h
          have h : (if RVal.lt e₀.2.2 e'.2.2 = true then some e' else some e₀) = none := h
          by_cases hlt : RVal.lt e₀.2.2 e'.2.2 = true
          · simp only [if_pos hlt] at h; cases h
          · simp only [if_neg hlt] at h; cases h
      · intro h
        exact absurd (h e₀ (List.mem_cons_self e₀ rest)) (by rw [hn]; simp)
    · rw [if_neg hn, ih]
      have hn' : e₀.2.2.notna = false := Bool.not_eq_true _ ▸ hn
      constructor
      · intro h e' he'
        rcases List.mem_cons.mp he' with rfl | ht
        · exact hn'
        · exact h e' ht
      · intro h e' he'
        exact h e' (List.mem_cons_of_mem e₀ he')

theorem idxmaxRatio_some_max {l : List (Row × Option ℚ × RVal)}
    {e : Row × Option ℚ × RVal} (h : idxmaxRatio l = some e) :
    e ∈ l ∧ e.2.2.notna = true
      ∧ ∀ e' ∈ l, e'.2.2.notna = true → RVal.lt e.2.2 e'.2.2 = false := by
  induction l generalizing e with
  | nil => simp [idxmaxRatio] at h
  | cons e₀ rest ih =>
    simp only [idxmaxRatio] at h
    by_cases hn : e₀.2.2.notna = true
    · rw [if_pos hn] at h
      cases hrest : idxmaxRatio rest with
      | none =>
        rw [hrest] at h
        have h : some e₀ = some e := h
        simp only [Option.some.injEq] at h
        subst h
        refine ⟨List.mem_cons_self e₀ rest, hn, ?_⟩
        intro e' he' hne'
        rcases List.mem_cons.mp he' with rfl | ht
        · exact RVal.lt_irrefl _
        · exact absurd hne' (by rw [(idxmaxRatio_eq_none.mp hrest) e' ht]; simp)
      | some er =>
        rw [hrest] at h
        have h : (if RVal.lt e₀.2.2 er.2.2 = true then some er else some e₀) = some e := h
        obtain ⟨hmem, hnotna, hmax⟩ := ih hrest
        by_cases hlt : RVal.lt e₀.2.2 er.2.2 = true
        · rw [if_pos hlt] at h
          simp only [Option.some.injEq] at h
          subst h
          refine ⟨List.mem_cons_of_mem e₀ hmem, hnotna, ?_⟩
          intro e' he' hne'
          rcases List.mem_cons.mp he' with rfl | ht
          · exact RVal.lt_asymm hlt
          · exact hmax e' ht hne'
        · rw [if_neg hlt] at h
          simp only [Option.some.injEq] at h
          subst h
          have hlt' : RVal.lt e₀.2.2 er.2.2 = false := Bool.not_eq_true _ ▸ hlt
          refine ⟨List.mem_cons_self e₀ rest, hn, ?_⟩
          intro e' he' hne'
          rcases List.mem_cons.mp he' with rfl | ht
          · exact RVal.lt_irrefl _
          · exact RVal.lt_neg_trans hlt' (hmax e' ht hne')
    · rw [if_neg hn] at h
      have hn' : e₀.2.2.notna = false := Bool.not_eq_true _ ▸ hn
      obtain ⟨hmem, hnotna, hmax⟩ := ih h
      refine ⟨List.mem_cons_of_mem e₀ hmem, hnotna, ?_⟩
      intro e' he' hne'
      rcases List.mem_cons.mp he' with rfl | ht
      · rw [hne'] at hn'; cases hn'
      · exact hmax e' ht hne'

theorem idxmaxRatio_some_first {l : List (Row × Option ℚ × RVal)}
    {e : Row × Option ℚ × RVal}
    (hpw : l.Pairwise (fun a b : Row × Option ℚ × RVal => a.1.data_date ≤ b.1.data_date))
    (h : idxmaxRatio l = some e) :
    ∀ e' ∈ l, e'.2.2.notna = true → RVal.lt e'.2.2 e.2.2 = false →
      e.1.data_date ≤ e'.1.data_date := by
  induction l generalizing e with
  | nil => simp [idxmaxRatio] at h
  | cons e₀ rest ih =>
    obtain ⟨hhead, htail⟩ := List.pairwise_cons.mp hpw
    simp only [idxmaxRatio] at h
    by_cases hn : e₀.2.2.notna = true
    · rw [if_pos hn] at h
      cases hrest : idxmaxRatio rest with
      | none =>
        rw [hrest] at h
        have h : some e₀ = some e := h
        simp only [Option.some.injEq] at h
        subst h
        intro e' he' _ _
        rcases List.mem_cons.mp he' with rfl | ht
        · exact le_refl _
        · exact hhead e' ht
      | some er =>
        rw [hrest] at h
        have h : (if RVal.lt e₀.2.2 er.2.2 = true then some er else some e₀) = some e := h
        by_cases hlt : RVal.lt e₀.2.2 er.2.2 = true
        · rw [if_pos hlt] at h
          simp only [Option.some.injEq] at h
          subst h
          intro e' he' hne' hge
          rcases List.mem_cons.mp he' with rfl | ht
          · rw [hge] at hlt; cases hlt
          · exact ih htail hrest e' ht hne' hge
        · rw [if_neg hlt] at h
          simp only [Option.some.injEq] at h
          subst h
          intro e' he' _ _
          rcases List.mem_cons.mp he' with rfl | ht
          · exact le_refl _
          · exact hhead e' ht
    · rw [if_neg hn] at h
      have hn' : e₀.2.2.notna = false := Bool.not_eq_true _ ▸ hn
      intro e' he' hne' hge
      rcases List.mem_cons.mp he' with rfl | ht
      · rw [hne'] at hn'; cases hn'
      · exact ih htail h e' ht hne' hge

theorem find?_first {p : Row → Bool} {s : List Row} {r : Row}
    (hpw : s.Pairwise rowLe) (h : s.find? p = some r) :
    ∀ r' ∈ s, p r' = true → r.data_date ≤ r'.data_date := by
  induction s with
  | nil => simp at h
  | cons a t ih =>
    obtain ⟨hhead, htail⟩ := List.pairwise_cons.mp hpw
    intro r' hr' hp'
    cases hpa : p a with
    | true =>
      rw [List.find?_cons_of_pos _ hpa] at h
      simp only [Option.some.injEq] at h
      subst h
      rcases List.mem_cons.mp hr' with rfl | ht
      · exact le_refl _
      · exact hhead r' ht
    | false =>
      rw [List.find?_cons_of_neg _ (by simp [hpa])] at h
      rcases List.mem_cons.mp hr' with rfl | ht
      · rw [hp'] at hpa; cases hpa
      · exact ih htail h r' ht hp'

theorem fallbackDate_spec {s : List Row} (hne : s ≠ []) (hpw : s.Pairwise rowLe) :
    ∃ r ∈ s, fallbackDate s = some r.data_date
      ∧ (∀ r' ∈ s, r'.departures ≤ r.departures)
      ∧ (∀ r' ∈ s, r'.departures = r.departures → r.data_date ≤ r'.data_date) := by
  have hattain : ∃ x ∈ s, x.departures = (s.map Row.departures).foldr max 0 := by
    have hmne : s.map Row.departures ≠ [] := by
      cases s with
      | nil => exact absurd rfl hne
      | cons a t => simp
    rcases foldr_max_attained hmne with hmem | h0
    · obtain ⟨r, hr, hrd⟩ := List.mem_map.mp hmem
      exact ⟨r, hr, hrd⟩
    · obtain ⟨r, hr⟩ := List.exists_mem_of_ne_nil s hne
      have : r.departures ≤ (s.map Row.departures).foldr max 0 :=
        le_foldr_max (List.mem_map_of_mem _ hr)
      exact ⟨r, hr, by omega⟩
  obtain ⟨x, hx, hxd⟩ := hattain
  have hfind : (s.find? fun r => r.departures = (s.map Row.departures).foldr max 0).isSome := by
    rw [List.find?_isSome]
    exact ⟨x, hx, by simp [hxd]⟩
  cases hf : s.find? fun r => r.departures = (s.map Row.departures).foldr max 0 with
  | none => rw [hf] at hfind; simp at hfind
  | some r =>
    have hrmem := List.mem_of_find?_eq_some hf
    have hrd : r.departures = (s.map Row.departures).foldr max 0 := by
      have := List.find?_some hf
      simpa using this
    refine ⟨r, hrmem, ?_, ?_, ?_⟩
    · show ((s.find? fun r => r.departures = (s.map Row.departures).foldr max 0).map
        Row.data_date) = some r.data_date
      rw [hf]; rfl
    · intro r' hr'
      rw [hrd]
      exact le_foldr_max (List.mem_map_of_mem _ hr')
    · intro r' hr' heq
      exact find?_first hpw hf r' hr' (by simp [heq, hrd])

theorem prep_notna_isSome (df : List Row) (window : ℕ) {e : Row × Option ℚ × RVal}
    (he : e ∈ prep df window) (hn : e.2.2.notna = true) : e.2.1.isSome = true := by
  have hr := prep_mem_ratio df window he
  cases hb : e.2.1 with
  | none =>
    rw [hb] at hr
    rw [hr] at hn
    simp [ratioOf, RVal.notna] at hn
  | some bq => rfl

theorem mem_ab_of_notna (df : List Row) (window : ℕ) {e : Row × Option ℚ × RVal}
    (he : e ∈ prep df window) (hn : e.2.2.notna = true) :
    e ∈ (prep df window).filter fun e => e.2.1.isSome :=
  List.mem_filter.mpr ⟨he, prep_notna_isSome df window he hn⟩

theorem ab_any_of_notna (df : List Row) (window : ℕ)
    (h : ∃ e₀ ∈ prep df window, e₀.2.2.notna = true) :
    (((prep df window).filter fun e => e.2.1.isSome).any fun e => e.2.2.notna) = true := by
  obtain ⟨e₀, he₀, hn₀⟩ := h
  exact List.any_eq_true.mpr ⟨e₀, mem_ab_of_notna df window he₀ hn₀, hn₀⟩

theorem ab_any_false (df : List Row) (window : ℕ)
    (h : ∀ e ∈ prep df window, e.2.2.notna = false) :
    (((prep df window).filter fun e => e.2.1.isSome).any fun e => e.2.2.notna) = false := by
  rw [List.any_eq_false]
  intro e he
  rw [h e (List.mem_filter.mp he).1]
  simp

theorem idxmax_ab_spec (df : List Row) (window : ℕ)
    (hany : ∃ e₀ ∈ prep df window, e₀.2.2.notna = true) :
    ∃ e ∈ prep df window, e.2.2.notna = true
      ∧ idxmaxRatio ((prep df window).filter fun e => e.2.1.isSome) = some e
      ∧ (∀ e' ∈ prep df window, e'.2.2.notna = true → RVal.lt e.2.2 e'.2.2 = false)
      ∧ (∀ e' ∈ prep df window, e'.2.2 = e.2.2 → e.1.data_date ≤ e'.1.data_date) := by
  obtain ⟨e₀, he₀, hn₀⟩ := hany
  have he₀ab := mem_ab_of_notna df window he₀ hn₀
  cases hidx : idxmaxRatio ((prep df window).filter fun e => e.2.1.isSome) with
  | none =>
    exact absurd hn₀ (by rw [idxmaxRatio_eq_none.mp hidx e₀ he₀ab]; simp)
  | some e =>
    obtain ⟨hemem, hen, hemax⟩ := idxmaxRatio_some_max hidx
    have heprep : e ∈ prep df window := (List.mem_filter.mp hemem).1
    have hpwab : ((prep df window).filter fun e => e.2.1.isSome).Pairwise
        (fun a b : Row × Option ℚ × RVal => a.1.data_date ≤ b.1.data_date) :=
      List.Pairwise.filter _ (prep_pairwise_date df window)
    refine ⟨e, heprep, hen, rfl, ?_, ?_⟩
    · intro e' he' hn'
      exact hemax e' (mem_ab_of_notna df window he' hn') hn'
    · intro e' he' heq
      have hn' : e'.2.2.notna = true := by rw [heq]; exact hen
      apply idxmaxRatio_some_first hpwab hidx e' (mem_ab_of_notna df window he' hn') hn'
      rw [heq]
      exact RVal.lt_irrefl _

theorem detect_eq_of_nomask (df : List Row) (window : ℕ)
    (multiplier min_count : ℚ) (guarantee : Bool)
    (hfil : (prep df window).filter (maskSpike min_count multiplier) = []) :
    detect_start_date df window multiplier min_count guarantee =
      if !guarantee then none
      else if ((prep df window).filter fun e => e.2.1.isSome).any fun e => e.2.2.notna then
        (idxmaxRatio ((prep df window).filter fun e => e.2.1.isSome)).map
          fun e => e.1.data_date
      else fallbackDate (sortByDate df) := by
  simp only [detect_start_date]
  rw [hfil]

/-- C2: Policy A fallback ladder: when no point of the series passes the
spike mask, `detect_start_date` of `school_celemony_prediction.py`
returns NaT if `guarantee` is off; with `guarantee` on it returns the
earliest maximum-ratio date among the points with a non-NaN ratio, and,
when every ratio is NaN, the earliest maximum-raw-count date. -/
theorem detect_policyA_fallback (df : List Row) (window : ℕ)
    (multiplier min_count : ℚ) (hne : df ≠ [])
    (hnomask : ∀ e ∈ prep df window, maskSpike min_count multiplier e = false) :
    detect_start_date df window multiplier min_count false = none
    ∧ ((∃ e₀ ∈ prep df window, e₀.2.2.notna = true) →
        ∃ e ∈ prep df window, e.2.2.notna = true
          ∧ detect_start_date df window multiplier min_count true = some e.1.data_date
          ∧ (∀ e' ∈ prep df window, e'.2.2.notna = true → RVal.lt e.2.2 e'.2.2 = false)
          ∧ (∀ e' ∈ prep df window, e'.2.2 = e.2.2 → e.1.data_date ≤ e'.1.data_date))
    ∧ ((∀ e ∈ prep df window, e.2.2.notna = false) →
        ∃ r ∈ sortByDate df,
          detect_start_date df window multiplier min_count true = some r.data_date
          ∧ (∀ r' ∈ sortByDate df, r'.departures ≤ r.departures)
          ∧ (∀ r' ∈ sortByDate df, r'.departures = r.departures →
              r.data_date ≤ r'.data_date)) := by
  have hfil : (prep df window).filter (maskSpike min_count multiplier) = [] :=
    List.filter_eq_nil_iff.mpr fun e he => by rw [hnomask e he]; simp
  refine ⟨?_, ?_, ?_⟩
  · rw [detect_eq_of_nomask df window multiplier min_count false hfil]
    simp
  · intro hany
    obtain ⟨e, heprep, hen, hidx, hmax, hties⟩ := idxmax_ab_spec df window hany
    refine ⟨e, heprep, hen, ?_, hmax, hties⟩
    rw [detect_eq_of_nomask df window multiplier min_count true hfil]
    rw [ab_any_of_notna df window hany, hidx]
    simp
  · intro hnone
    obtain ⟨r, hr, hfb, hmax, hmin⟩ :=
      fallbackDate_spec (sortByDate_ne_nil hne) (sortByDate_sorted df)
    refine ⟨r, hr, ?_, hmax, hmin⟩
    rw [detect_eq_of_nomask df window multiplier min_count true hfil]
    rw [ab_any_false df window hnone]
    simpa using hfb

/-- Witness for `detect_policyA_fallback`: a two-row series too short for
any baseline, `window = 7`, falls through to the raw-count fallback. -/
theorem detect_policyA_fallback_witness :
    (([⟨0, 0⟩, ⟨1, 1⟩] : List Row) ≠ [])
    ∧ (∀ e ∈ prep [⟨0, 0⟩, ⟨1, 1⟩] 7, maskSpike 50 (3/2) e = false)
    ∧ (detect_start_date [⟨0, 0⟩, ⟨1, 1⟩] 7 (3/2) 50 false = none
      ∧ ((∃ e₀ ∈ prep [⟨0, 0⟩, ⟨1, 1⟩] 7, e₀.2.2.notna = true) →
          ∃ e ∈ prep [⟨0, 0⟩, ⟨1, 1⟩] 7, e.2.2.notna = true
            ∧ detect_start_date [⟨0, 0⟩, ⟨1, 1⟩] 7 (3/2) 50 true = some e.1.data_date
            ∧ (∀ e' ∈ prep [⟨0, 0⟩, ⟨1, 1⟩] 7, e'.2.2.notna = true →
                RVal.lt e.2.2 e'.2.2 = false)
            ∧ (∀ e' ∈ prep [⟨0, 0⟩, ⟨1, 1⟩] 7, e'.2.2 = e.2.2 →
                e.1.data_date ≤ e'.1.data_date))
      ∧ ((∀ e ∈ prep [⟨0, 0⟩, ⟨1, 1⟩] 7, e.2.2.notna = false) →
          ∃ r ∈ sortByDate [⟨0, 0⟩, ⟨1, 1⟩],
            detect_start_date [⟨0, 0⟩, ⟨1, 1⟩] 7 (3/2) 50 true = some r.data_date
            ∧ (∀ r' ∈ sortByDate [⟨0, 0⟩, ⟨1, 1⟩], r'.departures ≤ r.departures)
            ∧ (∀ r' ∈ sortByDate [⟨0, 0⟩, ⟨1, 1⟩], r'.departures = r.departures →
                r.data_date ≤ r'.data_date))) :=
  ⟨by decide, by with_unfolding_all decide,
    detect_policyA_fallback [⟨0, 0⟩, ⟨1, 1⟩] 7 (3/2) 50 (by decide)
      (by with_unfolding_all decide)⟩

/-- C3: Policy B max-ratio-first: `detect_start_date` of
`school_celemony_prediction_2.py` ignores `multiplier` and `min_count`
entirely; whenever some point has a non-NaN ratio it returns the
earliest maximum-ratio date; otherwise it returns the earliest
maximum-raw-count date when `guarantee` is on and NaT when it is off. -/
theorem detect_policyB_max_ratio (df : List Row) (window : ℕ)
    (m m' mc mc' : ℚ) (guarantee : Bool) (hne : df ≠ []) :
    detect_start_date_2 df window m mc guarantee
      = detect_start_date_2 df window m' mc' guarantee
    ∧ ((∃ e₀ ∈ prep df window, e₀.2.2.notna = true) →
        ∃ e ∈ prep df window, e.2.2.notna = true
          ∧ detect_start_date_2 df window m mc guarantee = some e.1.data_date
          ∧ (∀ e' ∈ prep df window, e'.2.2.notna = true → RVal.lt e.2.2 e'.2.2 = false)
          ∧ (∀ e' ∈ prep df window, e'.2.2 = e.2.2 → e.1.data_date ≤ e'.1.data_date))
    ∧ ((∀ e ∈ prep df window, e.2.2.notna = false) → guarantee = true →
        ∃ r ∈ sortByDate df,
          detect_start_date_2 df window m mc true = some r.data_date
          ∧ (∀ r' ∈ sortByDate df, r'.departures ≤ r.departures)
          ∧ (∀ r' ∈ sortByDate df, r'.departures = r.departures →
              r.data_date ≤ r'.data_date))
    ∧ ((∀ e ∈ prep df window, e.2.2.notna = false) → guarantee = false →
        detect_start_date_2 df window m mc false = none) := by
  refine ⟨rfl, ?_, ?_, ?_⟩
  · intro hany
    obtain ⟨e, heprep, hen, hidx, hmax, hties⟩ := idxmax_ab_spec df window hany
    refine ⟨e, heprep, hen, ?_, hmax, hties⟩
    simp only [detect_start_date_2]
    rw [ab_any_of_notna df window hany, hidx]
    simp
  · intro hnone _
    obtain ⟨r, hr, hfb, hmax, hmin⟩ :=
      fallbackDate_spec (sortByDate_ne_nil hne) (sortByDate_sorted df)
    refine ⟨r, hr, ?_, hmax, hmin⟩
    simp only [detect_start_date_2]
    rw [ab_any_false df window hnone]
    simpa using hfb
  · intro hnone _
    simp only [detect_start_date_2]
    rw [ab_any_false df window hnone]
    simp

/-- Witness for `detect_policyB_max_ratio` at the spike series with two
distinct pairs of ignored threshold arguments. -/
theorem detect_policyB_max_ratio_witness :
    (([⟨0, 10⟩, ⟨1, 10⟩, ⟨2, 10⟩, ⟨3, 10⟩, ⟨4, 10⟩, ⟨5, 10⟩, ⟨6, 10⟩, ⟨7, 60⟩] : List Row) ≠ [])
    ∧ (detect_start_date_2 [⟨0, 10⟩, ⟨1, 10⟩, ⟨2, 10⟩, ⟨3, 10⟩, ⟨4, 10⟩, ⟨5, 10⟩, ⟨6, 10⟩,
          ⟨7, 60⟩] 7 (3/2) 50 true
        = detect_start_date_2 [⟨0, 10⟩, ⟨1, 10⟩, ⟨2, 10⟩, ⟨3, 10⟩, ⟨4, 10⟩, ⟨5, 10⟩, ⟨6, 10⟩,
          ⟨7, 60⟩] 7 2 60 true)
    ∧ ((∃ e₀ ∈ prep [⟨0, 10⟩, ⟨1, 10⟩, ⟨2, 10⟩, ⟨3, 10⟩, ⟨4, 10⟩, ⟨5, 10⟩, ⟨6, 10⟩,
          ⟨7, 60⟩] 7, e₀.2.2.notna = true) →
        ∃ e ∈ prep [⟨0, 10⟩, ⟨1, 10⟩, ⟨2, 10⟩, ⟨3, 10⟩, ⟨4, 10⟩, ⟨5, 10⟩, ⟨6, 10⟩,
          ⟨7, 60⟩] 7, e.2.2.notna = true
          ∧ detect_start_date_2 [⟨0, 10⟩, ⟨1, 10⟩, ⟨2, 10⟩, ⟨3, 10⟩, ⟨4, 10⟩, ⟨5, 10⟩,
              ⟨6, 10⟩, ⟨7, 60⟩] 7 (3/2) 50 true = some e.1.data_date
          ∧ (∀ e' ∈ prep [⟨0, 10⟩, ⟨1, 10⟩, ⟨2, 10⟩, ⟨3, 10⟩, ⟨4, 10⟩, ⟨5, 10⟩, ⟨6, 10⟩,
              ⟨7, 60⟩] 7, e'.2.2.notna = true → RVal.lt e.2.2 e'.2.2 = false)
          ∧ (∀ e' ∈ prep [⟨0, 10⟩, ⟨1, 10⟩, ⟨2, 10⟩, ⟨3, 10⟩, ⟨4, 10⟩, ⟨5, 10⟩, ⟨6, 10⟩,
              ⟨7, 60⟩] 7, e'.2.2 = e.2.2 → e.1.data_date ≤ e'.1.data_date)) :=
  ⟨by decide,
    (detect_policyB_max_ratio [⟨0, 10⟩, ⟨1, 10⟩, ⟨2, 10⟩, ⟨3, 10⟩, ⟨4, 10⟩, ⟨5, 10⟩,
      ⟨6, 10⟩, ⟨7, 60⟩] 7 (3/2) 2 50 60 true (by decide)).1,
    (detect_policyB_max_ratio [⟨0, 10⟩, ⟨1, 10⟩, ⟨2, 10⟩, ⟨3, 10⟩, ⟨4, 10⟩, ⟨5, 10⟩,
      ⟨6, 10⟩, ⟨7, 60⟩] 7 (3/2) 2 50 60 true (by decide)).2.1⟩

/-- C5 counterexample: the claim "whenever the baseline is zero the
ratio is undefined" fails on the code: in the series
`[0,0,0,0,0,0,0,5]` with `window = 7` the last point has baseline 0 and
a positive count, and pandas float division makes its ratio `+∞`, a
non-NaN value, not an undefined one. -/
theorem ratio_zero_baseline_pinf :
    ∃ e ∈ prep [⟨0, 0⟩, ⟨1, 0⟩, ⟨2, 0⟩, ⟨3, 0⟩, ⟨4, 0⟩, ⟨5, 0⟩, ⟨6, 0⟩, ⟨7, 5⟩] 7,
      e.2.1 = some 0 ∧ e.2.2 = RVal.pinf ∧ e.2.2 ≠ RVal.undef ∧ e.2.2.notna = true := by
  with_unfolding_all decide

/-- C5 amended: the ratio column equals `count / baseline` exactly when
the baseline is defined and non-zero; it is NaN when the baseline is NaN,
NaN when the baseline is zero and the count is zero, and `+∞` when the
baseline is zero and the count is positive; the computation is total
(no divide-by-zero fault). -/
theorem ratio_definedness (df : List Row) (window : ℕ) :
    ∀ e ∈ prep df window,
      e.2.2 = ratioOf e.1.departures e.2.1
      ∧ (e.2.1 = none → e.2.2 = RVal.undef)
      ∧ (∀ bq : ℚ, e.2.1 = some bq → bq ≠ 0 →
          e.2.2 = RVal.fin ((e.1.departures : ℚ) / bq))
      ∧ (e.2.1 = some 0 → e.1.departures = 0 → e.2.2 = RVal.undef)
      ∧ (e.2.1 = some 0 → 0 < e.1.departures → e.2.2 = RVal.pinf) := by
  intro e he
  have hr := prep_mem_ratio df window he
  refine ⟨hr, ?_, ?_, ?_, ?_⟩
  · intro hb
    rw [hr, hb]
    rfl
  · intro bq hb hbne
    rw [hr, hb]
    simp [ratioOf, hbne]
  · intro hb hc
    rw [hr, hb]
    simp [ratioOf, hc]
  · intro hb hc
    rw [hr, hb]
    simp [ratioOf]
    omega

/-- Witness for `ratio_definedness` at the singleton series with
`window = 1`, whose only entry has baseline 5 and ratio 1. -/
theorem ratio_definedness_witness :
    sampleEntry ∈ prep [⟨0, 5⟩] 1
    ∧ (sampleEntry.2.2 = ratioOf sampleEntry.1.departures sampleEntry.2.1
      ∧ (sampleEntry.2.1 = none → sampleEntry.2.2 = RVal.undef)
      ∧ (∀ bq : ℚ, sampleEntry.2.1 = some bq → bq ≠ 0 →
          sampleEntry.2.2 = RVal.fin ((sampleEntry.1.departures : ℚ) / bq))
      ∧ (sampleEntry.2.1 = some 0 → sampleEntry.1.departures = 0 →
          sampleEntry.2.2 = RVal.undef)
      ∧ (sampleEntry.2.1 = some 0 → 0 < sampleEntry.1.departures →
          sampleEntry.2.2 = RVal.pinf)) :=
  ⟨by with_unfolding_all decide,
    ratio_definedness [⟨0, 5⟩] 1 sampleEntry (by with_unfolding_all decide)⟩

/-! ### Per-station prediction table and order independence -/

/-- C6 counterexample: the claim that a target station with zero
observations yields an undefined Prediction row in the output is false:
with one data row for station 1 and targets `{0, 1}`, the output of
`predict_ceremony_dates` contains no row for station 0 at all — groupby
produces no group for an absent station, so the station is omitted
rather than paired with NaT. -/
theorem predict_empty_station_counterexample :
    predict_ceremony_dates [⟨0, 1, 3⟩] [0, 1] 7 (3/2) 50 true = [(1, some 0)]
    ∧ ∀ o : Option ℕ, (0, o) ∉ predict_ceremony_dates [⟨0, 1, 3⟩] [0, 1] 7 (3/2) 50 true := by
  have hout : predict_ceremony_dates [⟨0, 1, 3⟩] [0, 1] 7 (3/2) 50 true = [(1, some 0)] := by
    with_unfolding_all decide
  refine ⟨hout, ?_⟩
  intro o hmem
  rw [hout] at hmem
  simp at hmem

/-- C6 amended: a target station with zero observations in the daily
counts is omitted from the output of `predict_ceremony_dates` (no
Prediction row is produced for it), and its absence does not affect the
other stations: removing it from the target list leaves the whole
output unchanged. -/
theorem predict_empty_station_isolated (daily : List DRow) (target : List ℕ)
    (window : ℕ) (multiplier min_count : ℚ) (guarantee : Bool) (s : ℕ)
    (hs : ∀ r ∈ daily, r.station ≠ s) :
    (∀ o : Option ℕ,
      (s, o) ∉ predict_ceremony_dates daily target window multiplier min_count guarantee)
    ∧ predict_ceremony_dates daily target window multiplier min_count guarantee
      = predict_ceremony_dates daily (target.filter fun t => t ≠ s) window
          multiplier min_count guarantee := by
  constructor
  · intro o hmem
    simp only [predict_ceremony_dates] at hmem
    rw [List.mem_map] at hmem
    obtain ⟨s', hs', heq⟩ := hmem
    have hss : s' = s := congrArg Prod.fst heq
    subst hss
    rw [List.mem_insertionSort, List.mem_dedup, List.mem_map] at hs'
    obtain ⟨r, hr, hrs⟩ := hs'
    exact hs r (List.mem_filter.mp hr).1 hrs
  · have hsubset : (daily.filter fun r => decide (r.station ∈ target))
        = daily.filter fun r => decide (r.station ∈ target.filter fun t => t ≠ s) := by
      apply List.filter_congr
      intro r hr
      have hrs := hs r hr
      simp [List.mem_filter, hrs]
    simp only [predict_ceremony_dates]
    rw [hsubset]

/-- Witness for `predict_empty_station_isolated` at the concrete table
with one row for station 1 and the absent target station 0. -/
theorem predict_empty_station_isolated_witness :
    (∀ r ∈ ([⟨0, 1, 3⟩] : List DRow), r.station ≠ 0)
    ∧ ((∀ o : Option ℕ,
        (0, o) ∉ predict_ceremony_dates [⟨0, 1, 3⟩] [0, 1] 7 (3/2) 50 true)
      ∧ predict_ceremony_dates [⟨0, 1, 3⟩] [0, 1] 7 (3/2) 50 true
        = predict_ceremony_dates [⟨0, 1, 3⟩] ([0, 1].filter fun t => t ≠ 0) 7
            (3/2) 50 true) :=
  ⟨by decide, predict_empty_station_isolated [⟨0, 1, 3⟩] [0, 1] 7 (3/2) 50 true 0 (by decide)⟩

/-- C7: order independence: permuting the raw trip rows before
aggregation yields identical DailyCount tables and identical per-station
Prediction tables. -/
theorem aggregate_perm_invariant (rides rides' : List Trip) (hp : rides.Perm rides')
    (target : List ℕ) (window : ℕ) (multiplier min_count : ℚ) (guarantee : Bool) :
    aggregate_daily_counts rides = aggregate_daily_counts rides'
    ∧ predict_ceremony_dates (aggregate_daily_counts rides) target window
        multiplier min_count guarantee
      = predict_ceremony_dates (aggregate_daily_counts rides') target window
          multiplier min_count guarantee := by
  have hkeys : List.insertionSort keyLe
        ((rides.map fun t => (t.data_date, t.depature_station)).dedup)
      = List.insertionSort keyLe
        ((rides'.map fun t => (t.data_date, t.depature_station)).dedup) := by
    apply List.eq_of_perm_of_sorted (r := keyLe)
    · exact ((List.perm_insertionSort _ _).trans
        ((hp.map _).dedup)).trans (List.perm_insertionSort _ _).symm
    · exact List.sorted_insertionSort _ _
    · exact List.sorted_insertionSort _ _
  have hagg : aggregate_daily_counts rides = aggregate_daily_counts rides' := by
    simp only [aggregate_daily_counts]
    rw [hkeys]
    apply List.map_congr_left
    intro k _
    congr 1
    exact hp.countP_eq _
  exact ⟨hagg, by rw [hagg]⟩

/-- Witness for `aggregate_perm_invariant` on a two-row permutation. -/
theorem aggregate_perm_invariant_witness :
    ([⟨3, 1⟩, ⟨2, 5⟩] : List Trip).Perm [⟨2, 5⟩, ⟨3, 1⟩]
    ∧ (aggregate_daily_counts [⟨3, 1⟩, ⟨2, 5⟩] = aggregate_daily_counts [⟨2, 5⟩, ⟨3, 1⟩]
      ∧ predict_ceremony_dates (aggregate_daily_counts [⟨3, 1⟩, ⟨2, 5⟩]) [1, 5] 7
          (3/2) 50 true
        = predict_ceremony_dates (aggregate_daily_counts [⟨2, 5⟩, ⟨3, 1⟩]) [1, 5] 7
            (3/2) 50 true) :=
  ⟨by decide,
    aggregate_perm_invariant [⟨3, 1⟩, ⟨2, 5⟩] [⟨2, 5⟩, ⟨3, 1⟩] (by decide) [1, 5] 7
      (3/2) 50 true⟩

/-! ### The grouped summary and its split-derived count column -/

theorem hasSepCS_cons {a : Char} {l : List Char} (h : hasSepCS (a :: l) = false) :
    hasSepCS l = false := by
  cases l with
  | nil => rfl
  | cons b rest =>
    simp only [hasSepCS, Bool.or_eq_false_iff] at h
    exact h.2

theorem hasSepCS_head {a b : Char} {l : List Char}
    (h : hasSepCS (a :: b :: l) = false) : ¬(a = ',' ∧ b = ' ') := by
  rintro ⟨rfl, rfl⟩
  simp [hasSepCS] at h

theorem splitCS_no_sep {l : List Char} (h : hasSepCS l = false) :
    splitCommaSpace l = [l] := by
  induction l with
  | nil => rfl
  | cons a l ih =>
    cases l with
    | nil => rfl
    | cons b rest =>
      have hcond : ¬(a = ',' ∧ b = ' ') := hasSepCS_head h
      have htail : hasSepCS (b :: rest) = false := hasSepCS_cons h
      simp only [splitCommaSpace]
      rw [if_neg hcond, ih htail]

theorem splitCS_append_sep {n : List Char} (rest : List Char)
    (h : hasSepCS n = false) :
    splitCommaSpace (n ++ ',' :: ' ' :: rest) = n :: splitCommaSpace rest := by
  have hinner : splitCommaSpace (',' :: ' ' :: rest) = [] :: splitCommaSpace rest := by
    simp [splitCommaSpace]
  induction n with
  | nil =>
    simpa using hinner
  | cons a n ih =>
    cases n with
    | nil =>
      have hcond : ¬(a = ',' ∧ ',' = ' ') := by
        rintro ⟨_, h2⟩
        cases h2
      show (if a = ',' ∧ ',' = ' ' then [] :: splitCommaSpace (' ' :: rest)
            else match splitCommaSpace (',' :: ' ' :: rest) with
              | [] => [[a]]
              | p :: ps => (a :: p) :: ps)
          = [a] :: splitCommaSpace rest
      rw [if_neg hcond, hinner]
    | cons b n' =>
      have hcond : ¬(a = ',' ∧ b = ' ') := hasSepCS_head h
      have htail : hasSepCS (b :: n') = false := hasSepCS_cons h
      simp only [List.cons_append]
      simp only [splitCommaSpace]
      rw [if_neg hcond]
      rw [← List.cons_append, ih htail]

theorem splitCS_intercalate {names : List (List Char)} (hne : names ≠ [])
    (h : ∀ n ∈ names, hasSepCS n = false) :
    splitCommaSpace (List.intercalate sepCS names) = names := by
  induction names with
  | nil => exact absurd rfl hne
  | cons n names ih =>
    cases names with
    | nil =>
      have hn1 : List.intercalate sepCS [n] = n := by
        simp [List.intercalate]
      rw [hn1]
      exact splitCS_no_sep (h n (List.mem_singleton_self n))
    | cons n₂ names' =>
      have hstep : List.intercalate sepCS (n :: n₂ :: names')
          = n ++ ',' :: ' ' :: List.intercalate sepCS (n₂ :: names') := by
        simp [List.intercalate, List.intersperse_cons₂, sepCS]
      rw [hstep, splitCS_append_sep _ (h n (List.mem_cons_self n _)),
        ih (by simp) fun x hx => h x (List.mem_cons_of_mem n hx)]

/-- C10: with no station name containing the substring `", "`, each row
of the grouped summary written by `save_date_summary` has its `count`
column (derived by splitting the comma-joined station string) equal to
the number of stations predicted for that row's date. -/
theorem save_date_summary_count (preds : List SRow)
    (hsep : ∀ r ∈ preds, hasSepCS r.station = false) :
    ∀ e ∈ save_date_summary preds, e.2.2 = (stationsFor preds e.1).length := by
  intro e he
  simp only [save_date_summary] at he
  rw [List.mem_map] at he
  obtain ⟨d, hd, rfl⟩ := he
  rw [List.mem_insertionSort, List.mem_dedup] at hd
  obtain ⟨r, hr, hrd⟩ := List.mem_filterMap.mp hd
  have hrmem : r ∈ preds.filter fun r => r.pred_ceremony_date == some d :=
    List.mem_filter.mpr ⟨hr, by simp [hrd]⟩
  have hne : stationsFor preds d ≠ [] := by
    simp only [stationsFor]
    intro hnil
    rw [List.map_eq_nil_iff] at hnil
    rw [hnil] at hrmem
    cases hrmem
  have hall : ∀ n ∈ stationsFor preds d, hasSepCS n = false := by
    intro n hn
    simp only [stationsFor] at hn
    rw [List.mem_map] at hn
    obtain ⟨r', hr', rfl⟩ := hn
    exact hsep r' (List.mem_filter.mp hr').1
  show (splitCommaSpace (List.intercalate sepCS (stationsFor preds d))).length
    = (stationsFor preds d).length
  rw [splitCS_intercalate hne hall]

/-- Witness for `save_date_summary_count`: two stations `"a"` and `"b"`
predicted for date 3 produce a summary row with count 2. -/
theorem save_date_summary_count_witness :
    (∀ r ∈ ([⟨['a'], some 3⟩, ⟨['b'], some 3⟩, ⟨['c'], none⟩] : List SRow),
      hasSepCS r.station = false)
    ∧ ∀ e ∈ save_date_summary [⟨['a'], some 3⟩, ⟨['b'], some 3⟩, ⟨['c'], none⟩],
        e.2.2 = (stationsFor [⟨['a'], some 3⟩, ⟨['b'], some 3⟩, ⟨['c'], none⟩] e.1).length :=
  ⟨by decide,
    save_date_summary_count [⟨['a'], some 3⟩, ⟨['b'], some 3⟩, ⟨['c'], none⟩] (by decide)⟩

end Metro
